import Mathlib

/-!
Verification of the rssAlert enrichment pipeline.

This file shallowly embeds the Python sources of the repository
(`fetch_rss.py`, `summarize_with_gemini.py`, `process_all.py`,
`fix_missing_keywords.py`, `score_relevance.py`, `analytics_db.py`)
as executable Lean definitions and proves the specified properties
about them.
-/

namespace RssAlert

/-- One feed item, as stored in `feed.json`.  Fields that a JSON record
may lack (`description`, `ai_summary`, `keywords`, `relevance_level`)
are `Option`-valued; `none` models an absent key. -/
structure Item where
  title : String
  link : String
  date : String
  source : String
  description : Option String
  ai_summary : Option String
  keywords : Option (List String)
  relevance_level : Option String
deriving Repr, DecidableEq

/-- Python truthiness of `item.get(field)` for a string field:
false when the key is absent or the value is the empty string. -/
def truthyStr : Option String → Bool
  | none => false
  | some s => if s = "" then false else true

/-- Python truthiness of `item.get('keywords')`:
false when absent or the empty list. -/
def truthyKw : Option (List String) → Bool
  | none => false
  | some l => if l = [] then false else true

/-- Python `item.get(field, '')`. -/
def getStrD (o : Option String) : String := o.getD ""

/-- Python's whitespace test for `strip()` (the characters occurring in
this code base's data). -/
def isPySpace (c : Char) : Bool := c = ' ' || c = '\n' || c = '\t' || c = '\r'

/-- Python `s.strip()`. -/
def pyStrip (s : String) : String :=
  ⟨((s.data.dropWhile isPySpace).reverse.dropWhile isPySpace).reverse⟩

/-- Python `s.lower()` (ASCII case mapping). -/
def pyLower (s : String) : String := ⟨s.data.map Char.toLower⟩

/-- Python `s.upper()` (ASCII case mapping). -/
def pyUpper (s : String) : String := ⟨s.data.map Char.toUpper⟩

/-- Python `a or b` on strings. -/
def pyOr (a b : String) : String := if a = "" then b else a

/-! ## fetch_rss.py — Dedup/Merge Engine -/

/-- Model of `deduplicate_items(new_items, existing_items)` from `fetch_rss.py`:
keep the new items whose link is not among the existing links and whose
title is not among the existing titles.  Both membership tests are
against the *existing* snapshot only. -/
def deduplicate_items (new_items existing_items : List Item) : List Item :=
  new_items.filter (fun it =>
    decide (¬ it.link ∈ existing_items.map Item.link
      ∧ ¬ it.title ∈ existing_items.map Item.title))

/-- The merge performed by `main` in `fetch_rss.py`
(`all_items = existing_items + unique_new_items`). -/
def mergeFeeds (existing new_items : List Item) : List Item :=
  existing ++ deduplicate_items new_items existing

/-! ## summarize_with_gemini.py — Scheduler and Generation Client Adapter -/

/-- The sentinel summary written on terminal failure. -/
def sentinelSummary : String := "Unable to generate summary"

/-- The adapter's return value as seen by `main`:
`none` models `(None, [])` (terminal failure); `some (s, kws)` a
returned `(summary, keywords)` pair (where `s` may still be `""`). -/
abbrev AdapterResult := Option (String × List String)

/-- Effect of one processed item in `main` of `summarize_with_gemini.py`:
`if summary:` stores the generated text together with the keywords;
otherwise the sentinel marker with empty keywords is stored. -/
def applyOutcome (it : Item) (o : AdapterResult) : Item :=
  match o with
  | some (s, kws) =>
      if s = "" then { it with ai_summary := some sentinelSummary, keywords := some [] }
      else { it with ai_summary := some s, keywords := some kws }
  | none => { it with ai_summary := some sentinelSummary, keywords := some [] }

/-- One Scheduler pass over the corpus (`main` of
`summarize_with_gemini.py`): items that already have a truthy
`ai_summary` are skipped; the first `b` items lacking one are
processed in order, the `k`-th adapter call receiving `oracle k`. -/
def schedProcess (oracle : Nat → AdapterResult) : Nat → Nat → List Item → List Item
  | _, _, [] => []
  | k, b, it :: rest =>
    if truthyStr it.ai_summary then it :: schedProcess oracle k b rest
    else match b with
      | 0 => it :: schedProcess oracle k 0 rest
      | b' + 1 => applyOutcome it (oracle k) :: schedProcess oracle (k + 1) b' rest

/-- Model of `count_remaining` from `process_all.py`: items without a truthy
`ai_summary` (the `needsSummary` backlog). -/
def count_remaining (items : List Item) : Nat :=
  items.countP (fun it => !(truthyStr it.ai_summary))

/-- Snapshot on disk after the run is killed having completed `m` items
of the batch: `main` saves after items 5, 10, … (`idx % 5 == 0`), so the
last persisted state is the one after `m / 5 * 5` processed items
(the initial snapshot when `m < 5`). -/
def persistedAfterKill (oracle : Nat → AdapterResult) (m : Nat) (items : List Item) :
    List Item :=
  schedProcess oracle 0 (m / 5 * 5) items

/-! ### Response parsing in `generate_haptic_summary_and_keywords` -/

/-- The fixed exclusion set of generic keywords. -/
def excluded_keywords : List String :=
  ["haptic", "haptics", "vibration", "vibrations", "tactile"]

/-- Parsing of a `KEYWORDS: a, b, c` payload: split on commas, strip and
lowercase, drop empties and excluded entries, keep at most 4. -/
def parseKeywords (s : String) : List String :=
  (((s.splitOn ",").map (fun k => pyLower (pyStrip k))).filter
    (fun k => !(k = "") && !(excluded_keywords.contains k))).take 4

/-- Line-by-line parsing of the model response, with the fallback that
truncates the raw text when no `SUMMARY:` line was found. -/
def parseResponse (result : String) : String × List String :=
  let step := fun (acc : String × List String) (rawLine : String) =>
    let line := pyStrip rawLine
    if line.startsWith "SUMMARY:" then (pyStrip (line.replace "SUMMARY:" ""), acc.2)
    else if line.startsWith "KEYWORDS:" then
      (acc.1, parseKeywords (pyStrip (line.replace "KEYWORDS:" "")))
    else acc
  let parsed := (result.splitOn "\n").foldl step ("", [])
  let summary :=
    if parsed.1 = "" then
      (if result.length ≤ 500 then result else result.take 497 ++ "...")
    else parsed.1
  (summary, parsed.2)

/-! ### Retry loop of the adapter -/

/-- Outcome of one `model.generate_content` attempt: a response text,
or a raised exception with its message. -/
inductive AttemptResult where
  | ok : String → AttemptResult
  | err : String → AttemptResult
deriving Repr, DecidableEq

/-- Whether `nd` occurs at the start of `hay`. -/
def leadsWith : List Char → List Char → Bool
  | [], _ => true
  | _ :: _, [] => false
  | a :: as, b :: bs => a = b && leadsWith as bs

/-- Whether `nd` occurs as a contiguous run inside `hay`
(Python's `nd in hay`). -/
def containsSub (nd : List Char) : List Char → Bool
  | [] => leadsWith nd []
  | h :: t => leadsWith nd (h :: t) || containsSub nd t

/-- The rate/quota classification in the adapter:
`"429" in error_msg or "quota" in error_msg.lower()`. -/
def isQuotaError (msg : String) : Bool :=
  containsSub "429".toList msg.toList || containsSub "quota".toList (pyLower msg).toList

/-- The retry loop of `generate_haptic_summary_and_keywords` with
`max_retries = maxR`; `fuel` counts the attempts still allowed by
`range(max_retries)`, so the current attempt index is `maxR - fuel`.
Returns the result, the number of attempts made, and the list of
backoff waits performed (seconds). -/
def genGo (oracle : Nat → AttemptResult) (maxR : Nat) :
    Nat → AdapterResult × Nat × List Nat
  | 0 => (none, 0, [])
  | fuel + 1 =>
    let a := maxR - (fuel + 1)
    match oracle a with
    | AttemptResult.ok text => (some (parseResponse text), 1, [])
    | AttemptResult.err msg =>
      if isQuotaError msg then
        match fuel with
        | 0 => (none, 1, [])
        | _ + 1 =>
          let r := genGo oracle maxR fuel
          (r.1, r.2.1 + 1, (2 ^ a * 10) :: r.2.2)
      else (none, 1, [])

/-- Model of `generate_haptic_summary_and_keywords` with its default
`max_retries = 3`, abstracted over the per-attempt outcomes. -/
def generateWithRetries (oracle : Nat → AttemptResult) : AdapterResult × Nat × List Nat :=
  genGo oracle 3 3

/-! ## process_all.py — outer convergence loop -/

/-- How the outer loop ended. -/
inductive LoopExit where
  | completed
  | stalled
deriving Repr, DecidableEq

/-- The `while True` loop of `main` in `process_all.py`, with an
explicit fuel bound so that non-termination would show up as `none`:
count the backlog, stop when it is zero, run one Scheduler pass
(iteration `i` uses the adapter outcomes `oracles i`), and stop
reporting `stalled` the first time the backlog count is unchanged. -/
def outerLoop (oracles : Nat → Nat → AdapterResult) (B : Nat) :
    Nat → Nat → List Item → Option (List Item × LoopExit)
  | 0, _, _ => none
  | fuel + 1, i, items =>
    if count_remaining items = 0 then some (items, LoopExit.completed)
    else
      let next := schedProcess (oracles i) 0 B items
      if count_remaining next = count_remaining items then some (next, LoopExit.stalled)
      else outerLoop oracles B fuel (i + 1) next

/-- An adapter mock that fails terminally on every call of every run. -/
def alwaysFailOracle : Nat → Nat → AdapterResult := fun _ _ => none

/-! ## fix_missing_keywords.py — repair pass -/

/-- The repair pass `fix_missing_keywords`: an item with a truthy `ai_summary` and a
falsy keyword list has its summary removed (`pop`) and its keywords set
to `[]`, so it re-enters the backlog. -/
def fix_missing_keywords (items : List Item) : List Item :=
  items.map (fun it =>
    if truthyStr it.ai_summary && !(truthyKw it.keywords) then
      { it with ai_summary := none, keywords := some [] }
    else it)

/-! ## score_relevance.py — relevance tier pass -/

/-- Outcome of one `model.generate_content` call in the scoring pass. -/
inductive GenReply where
  | text : String → GenReply
  | genError : String → GenReply
deriving Repr, DecidableEq

/-- Model of `score_post`: returns `low` when the item has neither a truthy
`ai_summary` nor a truthy `description`; otherwise maps the model reply
to a tier, defaulting to `low` for unrecognized replies or errors. -/
def score_post (reply : GenReply) (item : Item) : String :=
  let summary := pyOr (getStrD item.ai_summary) (getStrD item.description)
  if summary = "" then "low"
  else
    match reply with
    | GenReply.genError _ => "low"
    | GenReply.text t =>
      let result := pyUpper (pyStrip t)
      if result = "HIGH" || result = "MID" || result = "LOW" then pyLower result
      else "low"

/-- Model of `main` of `score_relevance.py`: only items without a truthy
`relevance_level` are scored, the `k`-th scoring call receiving
`oracle k`; already-tiered items pass through untouched. -/
def scoreAll (oracle : Nat → GenReply) : Nat → List Item → List Item
  | _, [] => []
  | k, it :: rest =>
    if truthyStr it.relevance_level then it :: scoreAll oracle k rest
    else { it with relevance_level := some (score_post (oracle k) it) }
      :: scoreAll oracle (k + 1) rest

/-! ## save_feed — the Corpus Store write path -/

/-- The observable file operations `save_feed` performs on the target
file: `open(filename, "w")` truncates it in place, then `json.dump`
streams the payload into it.  No temporary file and no rename occur. -/
inductive WriteOp where
  | truncateTarget
  | appendTarget : String → WriteOp
deriving Repr, DecidableEq

/-- The write trace of `save_feed(items)` (both copies, in
`fetch_rss.py` and `summarize_with_gemini.py`, open the target with
mode `"w"` and dump into it). -/
def save_feed_trace (payload : String) : List WriteOp :=
  [WriteOp.truncateTarget, WriteOp.appendTarget payload]

/-- Effect of one operation on the readable file content. -/
def applyOp (file : String) : WriteOp → String
  | WriteOp.truncateTarget => ""
  | WriteOp.appendTarget s => file ++ s

/-- All file contents readable at some point while the operations run
(including before the first and after the last). -/
def runOps (file : String) : List WriteOp → List String
  | [] => [file]
  | op :: rest => file :: runOps (applyOp file op) rest

/-! ## analytics_db.py — Analytical Projector -/

/-- One row of the `articles` relation. -/
structure ArticleRow where
  id : Nat
  title : String
  link : String
  date : String
  source : String
  description : Option String
  ai_summary : Option String
deriving Repr, DecidableEq

/-- The three relations of `analytics.db` plus the autoincrement
counters. -/
structure AnalyticsDB where
  articles : List ArticleRow
  keywords : List (Nat × String)
  article_keywords : List (Nat × Nat)
  nextArticleId : Nat
  nextKeywordId : Nat
deriving Repr, DecidableEq

/-- A freshly created database. -/
def emptyDB : AnalyticsDB :=
  { articles := [], keywords := [], article_keywords := [],
    nextArticleId := 1, nextKeywordId := 1 }

/-- Lookup `SELECT id FROM articles WHERE link = ?` (first matching row). -/
def findArticle (db : AnalyticsDB) (link : String) : Option ArticleRow :=
  db.articles.find? (fun r => r.link = link)

/-- The row built by the `INSERT INTO articles` branch: absent
`description`/`ai_summary` fields default to `''` (never NULL). -/
def insertRow (db : AnalyticsDB) (item : Item) : ArticleRow :=
  { id := db.nextArticleId, title := item.title, link := item.link,
    date := item.date, source := item.source,
    description := some (getStrD item.description),
    ai_summary := some (getStrD item.ai_summary) }

/-- The `UPDATE articles SET ai_summary = ?, description = ? WHERE id = ?`
branch: `item.get(...)` without a default stores NULL for absent
fields. -/
def updateRowFields (item : Item) (targetId : Nat) (r : ArticleRow) : ArticleRow :=
  if r.id = targetId then
    { r with ai_summary := item.ai_summary, description := item.description }
  else r

/-- The article part of one loop iteration of `import_feed`: update in
place when the link exists, insert otherwise; returns the article id
used for the keyword links. -/
def importArticle (db : AnalyticsDB) (item : Item) : AnalyticsDB × Nat :=
  match findArticle db item.link with
  | some row =>
    ({ db with articles := db.articles.map (updateRowFields item row.id) }, row.id)
  | none =>
    ({ db with
        articles := db.articles ++ [insertRow db item],
        nextArticleId := db.nextArticleId + 1 }, db.nextArticleId)

/-- Model of `INSERT OR IGNORE INTO keywords (keyword) VALUES (?)`. -/
def insertKeywordIfAbsent (db : AnalyticsDB) (kw : String) : AnalyticsDB :=
  if (db.keywords.find? (fun q => q.2 = kw)).isSome then db
  else { db with
          keywords := db.keywords ++ [(db.nextKeywordId, kw)],
          nextKeywordId := db.nextKeywordId + 1 }

/-- One keyword of one item: ensure the keyword row exists, look its id
up, and insert-or-ignore the association pair. -/
def importKeyword (db : AnalyticsDB) (aid : Nat) (kw : String) : AnalyticsDB :=
  let db1 := insertKeywordIfAbsent db kw
  match db1.keywords.find? (fun q => q.2 = kw) with
  | none => db1
  | some p =>
    if (aid, p.1) ∈ db1.article_keywords then db1
    else { db1 with article_keywords := db1.article_keywords ++ [(aid, p.1)] }

/-- One item of the `import_feed` loop. -/
def importItem (db : AnalyticsDB) (item : Item) : AnalyticsDB :=
  let p := importArticle db item
  (item.keywords.getD []).foldl (fun d kw => importKeyword d p.2 kw) p.1

/-- Model of `import_feed`: fold the whole snapshot into the database. -/
def import_feed (db : AnalyticsDB) (items : List Item) : AnalyticsDB :=
  items.foldl importItem db

/-- Well-formedness that the real SQLite store guarantees: article ids
are pairwise distinct and below the autoincrement counter. -/
def dbWF (db : AnalyticsDB) : Prop :=
  (db.articles.map ArticleRow.id).Nodup ∧ ∀ r ∈ db.articles, r.id < db.nextArticleId

/-- Whether the database already reflects `item` exactly as a re-import
would write it: its row is present with the item's literal
`ai_summary`/`description` values, and every keyword of the item is
present and associated to the row. -/
def kwSynced (db : AnalyticsDB) (aid : Nat) (kw : String) : Bool :=
  match db.keywords.find? (fun q => q.2 = kw) with
  | some p => (aid, p.1) ∈ db.article_keywords
  | none => false

/-- Decidable "the article part and all keyword parts of `item` are
already exactly in `db`". -/
def itemSynced (db : AnalyticsDB) (item : Item) : Bool :=
  match findArticle db item.link with
  | some r =>
    r.ai_summary == item.ai_summary && r.description == item.description
      && (item.keywords.getD []).all (fun kw => kwSynced db r.id kw)
  | none => false

/-! ## Concrete items used by witnesses and counterexamples -/

/-- A freshly ingested item: no summary, no keywords, no tier. -/
def cItemFresh : Item :=
  { title := "t1", link := "u1", date := "2024-01-01", source := "s",
    description := none, ai_summary := none, keywords := none, relevance_level := none }

/-- A fully enriched item. -/
def cItemDone : Item :=
  { title := "t2", link := "u2", date := "2024-01-02", source := "s",
    description := some "desc", ai_summary := some "sum", keywords := some ["k1"],
    relevance_level := none }

/-- A second fresh item with a distinct identity. -/
def cItemFresh2 : Item :=
  { title := "t3", link := "u3", date := "2024-01-03", source := "s",
    description := none, ai_summary := none, keywords := none, relevance_level := none }

/-! ## Helper lemmas -/

theorem truthyStr_applyOutcome (it : Item) (o : AdapterResult) :
    truthyStr (applyOutcome it o).ai_summary = true := by
  rcases o with _ | ⟨s, kws⟩
  · simp [applyOutcome, truthyStr, sentinelSummary]
  · by_cases hs : s = ""
    · simp [applyOutcome, hs, truthyStr, sentinelSummary]
    · simp [applyOutcome, hs, truthyStr]

theorem keywords_applyOutcome (it : Item) (o : AdapterResult) :
    (applyOutcome it o).keywords.isSome = true := by
  rcases o with _ | ⟨s, kws⟩
  · simp [applyOutcome]
  · by_cases hs : s = "" <;> simp [applyOutcome, hs]

theorem count_remaining_nil : count_remaining [] = 0 := rfl

theorem count_remaining_cons (it : Item) (l : List Item) :
    count_remaining (it :: l)
      = count_remaining l + (if truthyStr it.ai_summary then 0 else 1) := by
  by_cases h : truthyStr it.ai_summary <;>
    simp [count_remaining, List.countP_cons, h]

/-- The backlog count after one Scheduler pass: exactly `min b backlog`
items get a summary. -/
theorem count_schedProcess (oracle : Nat → AdapterResult) :
    ∀ (items : List Item) (k b : Nat),
      count_remaining (schedProcess oracle k b items)
        = count_remaining items - min b (count_remaining items) := by
  intro items
  induction items with
  | nil => intro k b; simp [schedProcess, count_remaining]
  | cons it rest ih =>
    intro k b
    by_cases h : truthyStr it.ai_summary
    · rw [show schedProcess oracle k b (it :: rest)
          = it :: schedProcess oracle k b rest by simp [schedProcess, h]]
      rw [count_remaining_cons, count_remaining_cons, ih, h]
      simp
    · match b with
      | 0 =>
        rw [show schedProcess oracle k 0 (it :: rest)
            = it :: schedProcess oracle k 0 rest by simp [schedProcess, h]]
        rw [count_remaining_cons, count_remaining_cons, ih]
        simp [h]
      | b' + 1 =>
        rw [show schedProcess oracle k (b' + 1) (it :: rest)
            = applyOutcome it (oracle k) :: schedProcess oracle (k + 1) b' rest by
              simp [schedProcess, h]]
        rw [count_remaining_cons, count_remaining_cons, ih,
          truthyStr_applyOutcome, if_neg h, if_pos rfl]
        have := Nat.min_le_right b' (count_remaining rest)
        have h1 : min (b' + 1) (count_remaining rest + 1) = min b' (count_remaining rest) + 1 :=
          Nat.succ_min_succ b' (count_remaining rest)
        omega

theorem schedProcess_mem (oracle : Nat → AdapterResult) :
    ∀ (items : List Item) (k b : Nat) (it : Item),
      it ∈ schedProcess oracle k b items →
      it ∈ items ∨ (truthyStr it.ai_summary = true ∧ it.keywords.isSome = true) := by
  intro items
  induction items with
  | nil => intro k b it h; simp [schedProcess] at h
  | cons hd rest ih =>
    intro k b it hmem
    by_cases h : truthyStr hd.ai_summary
    · rw [show schedProcess oracle k b (hd :: rest)
          = hd :: schedProcess oracle k b rest by simp [schedProcess, h]] at hmem
      rcases List.mem_cons.mp hmem with h1 | h1
      · exact Or.inl (by simp [h1])
      · rcases ih k b it h1 with h2 | h2
        · exact Or.inl (List.mem_cons_of_mem _ h2)
        · exact Or.inr h2
    · match b with
      | 0 =>
        rw [show schedProcess oracle k 0 (hd :: rest)
            = hd :: schedProcess oracle k 0 rest by simp [schedProcess, h]] at hmem
        rcases List.mem_cons.mp hmem with h1 | h1
        · exact Or.inl (by simp [h1])
        · rcases ih k 0 it h1 with h2 | h2
          · exact Or.inl (List.mem_cons_of_mem _ h2)
          · exact Or.inr h2
      | b' + 1 =>
        rw [show schedProcess oracle k (b' + 1) (hd :: rest)
            = applyOutcome hd (oracle k) :: schedProcess oracle (k + 1) b' rest by
              simp [schedProcess, h]] at hmem
        rcases List.mem_cons.mp hmem with h1 | h1
        · exact Or.inr (by rw [h1]; exact ⟨truthyStr_applyOutcome _ _, keywords_applyOutcome _ _⟩)
        · rcases ih (k + 1) b' it h1 with h2 | h2
          · exact Or.inl (List.mem_cons_of_mem _ h2)
          · exact Or.inr h2

/-! ## Claim theorems -/

/-- C4: One Scheduler invocation leaves the `needsSummary` count
non-increasing and decreases it by exactly `min B needsSummary`; every
item of the result is either an untouched input item or carries a
non-empty summary (generated text or the sentinel) together with a
keywords field. -/
theorem scheduler_progress_exact (oracle : Nat → AdapterResult) (B : Nat)
    (items : List Item) :
    count_remaining (schedProcess oracle 0 B items)
        = count_remaining items - min B (count_remaining items)
    ∧ count_remaining (schedProcess oracle 0 B items) ≤ count_remaining items
    ∧ ∀ it ∈ schedProcess oracle 0 B items,
        it ∈ items ∨ (truthyStr it.ai_summary = true ∧ it.keywords.isSome = true) := by
  refine ⟨count_schedProcess oracle items 0 B, ?_, ?_⟩
  · rw [count_schedProcess oracle items 0 B]; exact Nat.sub_le _ _
  · intro it h; exact schedProcess_mem oracle items 0 B it h

/-- C4 witness: a concrete run of two needy items with batch 10, one
success and one terminal failure. -/
theorem scheduler_progress_exact_witness :
    count_remaining
        (schedProcess (fun k => if k = 0 then some ("S", ["kw"]) else none) 0 10
          [cItemFresh, cItemDone, cItemFresh2])
        = count_remaining [cItemFresh, cItemDone, cItemFresh2]
          - min 10 (count_remaining [cItemFresh, cItemDone, cItemFresh2])
    ∧ count_remaining
        (schedProcess (fun k => if k = 0 then some ("S", ["kw"]) else none) 0 10
          [cItemFresh, cItemDone, cItemFresh2])
        ≤ count_remaining [cItemFresh, cItemDone, cItemFresh2]
    ∧ ∀ it ∈ schedProcess (fun k => if k = 0 then some ("S", ["kw"]) else none) 0 10
          [cItemFresh, cItemDone, cItemFresh2],
        it ∈ [cItemFresh, cItemDone, cItemFresh2]
          ∨ (truthyStr it.ai_summary = true ∧ it.keywords.isSome = true) :=
  scheduler_progress_exact (fun k => if k = 0 then some ("S", ["kw"]) else none) 10
    [cItemFresh, cItemDone, cItemFresh2]

/-- C8: the run checkpoints after every 5 processed items, so when it is
killed after completing `m` items of the batch the persisted snapshot
has exactly `m / 5 * 5` items newly summarized; the loss is at most 4
items, and for `m = 7` at least 5 items are persisted. -/
theorem checkpoint_bound (oracle : Nat → AdapterResult) (items : List Item) (m : Nat)
    (h : m ≤ count_remaining items) :
    (count_remaining items - count_remaining (persistedAfterKill oracle m items)
        = m / 5 * 5)
    ∧ m - m / 5 * 5 ≤ 4
    ∧ (m = 7 → 5 ≤ count_remaining items
        - count_remaining (persistedAfterKill oracle m items)) := by
  have hc := count_schedProcess oracle items 0 (m / 5 * 5)
  have h1 : m / 5 * 5 ≤ m := Nat.div_mul_le_self m 5
  have h2 : min (m / 5 * 5) (count_remaining items) = m / 5 * 5 :=
    Nat.min_eq_left (le_trans h1 h)
  unfold persistedAfterKill
  rw [hc, h2]
  omega

/-- C8 witness: a kill after 7 items of a batch over 8 needy items. -/
theorem checkpoint_bound_witness :
    7 ≤ count_remaining (List.replicate 8 cItemFresh)
    ∧ (count_remaining (List.replicate 8 cItemFresh)
        - count_remaining (persistedAfterKill (fun _ => none) 7 (List.replicate 8 cItemFresh))
        = 7 / 5 * 5)
    ∧ 7 - 7 / 5 * 5 ≤ 4
    ∧ (7 = 7 → 5 ≤ count_remaining (List.replicate 8 cItemFresh)
        - count_remaining (persistedAfterKill (fun _ => none) 7 (List.replicate 8 cItemFresh))) :=
  ⟨by decide, checkpoint_bound (fun _ => none) (List.replicate 8 cItemFresh) 7 (by decide)⟩

/-- C1 counterexample: the engine filters incoming items only against
the existing snapshot, so an incoming sequence that repeats an identity
produces a merged snapshot with duplicate links — the second occurrence
is appended too. -/
theorem dedup_internal_duplicates_counterexample :
    mergeFeeds [] [cItemFresh, cItemFresh] = [cItemFresh, cItemFresh]
    ∧ ¬ ((mergeFeeds [] [cItemFresh, cItemFresh]).map Item.link).Nodup := by
  constructor
  · decide
  · decide

/-- C1 amended: when the existing snapshot and the incoming sequence
each have pairwise-distinct links, the merged snapshot's links are
pairwise distinct. -/
theorem merged_identities_distinct (existing incoming : List Item)
    (h1 : (existing.map Item.link).Nodup) (h2 : (incoming.map Item.link).Nodup) :
    ((mergeFeeds existing incoming).map Item.link).Nodup := by
  unfold mergeFeeds deduplicate_items
  rw [List.map_append, List.nodup_append]
  refine ⟨h1, ?_, ?_⟩
  · exact h2.sublist ((List.filter_sublist incoming).map Item.link)
  · intro a ha hb
    rw [List.mem_map] at hb
    rcases hb with ⟨it, hit, rfl⟩
    rw [List.mem_filter] at hit
    have := of_decide_eq_true hit.2
    exact this.1 ha

/-- C1 witness: two distinct-link snapshots merge to distinct links. -/
theorem merged_identities_distinct_witness :
    ([cItemDone].map Item.link).Nodup
    ∧ ([cItemFresh, cItemFresh2].map Item.link).Nodup
    ∧ ((mergeFeeds [cItemDone] [cItemFresh, cItemFresh2]).map Item.link).Nodup :=
  ⟨by decide, by decide,
    merged_identities_distinct [cItemDone] [cItemFresh, cItemFresh2] (by decide) (by decide)⟩

/-- C6: the merge keeps the existing snapshot unchanged as the front of
the result; an incoming item matching no existing link and no existing
title appears in the appended part, and an incoming item matching an
existing link or title does not. -/
theorem dedup_merge_contract (existing incoming : List Item) :
    ((mergeFeeds existing incoming).take existing.length = existing)
    ∧ (∀ it ∈ incoming,
        (∀ ex ∈ existing, ¬(ex.link = it.link) ∧ ¬(ex.title = it.title)) →
          it ∈ (mergeFeeds existing incoming).drop existing.length)
    ∧ (∀ it ∈ incoming,
        (∃ ex ∈ existing, ex.link = it.link ∨ ex.title = it.title) →
          ¬ it ∈ (mergeFeeds existing incoming).drop existing.length) := by
  unfold mergeFeeds
  rw [List.take_left, List.drop_left]
  refine ⟨rfl, ?_, ?_⟩
  · intro it hin hno
    unfold deduplicate_items
    rw [List.mem_filter]
    refine ⟨hin, decide_eq_true ?_⟩
    constructor
    · intro hmem
      rw [List.mem_map] at hmem
      rcases hmem with ⟨ex, hex, hl⟩
      exact (hno ex hex).1 hl
    · intro hmem
      rw [List.mem_map] at hmem
      rcases hmem with ⟨ex, hex, ht⟩
      exact (hno ex hex).2 ht
  · intro it _ hyes hmem
    unfold deduplicate_items at hmem
    rw [List.mem_filter] at hmem
    have hcond := of_decide_eq_true hmem.2
    rcases hyes with ⟨ex, hex, hl | ht⟩
    · exact hcond.1 (List.mem_map.mpr ⟨ex, hex, hl⟩)
    · exact hcond.2 (List.mem_map.mpr ⟨ex, hex, ht⟩)

/-- C6 witness: one suppressed (title match) and one appended item. -/
theorem dedup_merge_contract_witness :
    ((mergeFeeds [cItemDone] [cItemFresh, { cItemFresh2 with title := "t2" }]).take 1
      = [cItemDone])
    ∧ (cItemFresh ∈ (mergeFeeds [cItemDone]
        [cItemFresh, { cItemFresh2 with title := "t2" }]).drop 1)
    ∧ ¬ ({ cItemFresh2 with title := "t2" } ∈ (mergeFeeds [cItemDone]
        [cItemFresh, { cItemFresh2 with title := "t2" }]).drop 1) :=
  ⟨(dedup_merge_contract [cItemDone] [cItemFresh, { cItemFresh2 with title := "t2" }]).1,
    (dedup_merge_contract [cItemDone] [cItemFresh, { cItemFresh2 with title := "t2" }]).2.1
      cItemFresh (by decide) (by decide),
    (dedup_merge_contract [cItemDone] [cItemFresh, { cItemFresh2 with title := "t2" }]).2.2
      { cItemFresh2 with title := "t2" } (by decide) ⟨cItemDone, by decide, Or.inr (by decide)⟩⟩

/-- C3: the Corpus Store write is not atomic — `save_feed` truncates
the target file in place before streaming the new payload, so a reader
at the intermediate point observes the empty file, which is not the
previously committed snapshot. -/
theorem save_feed_truncates_in_place :
    (∀ prev payload, runOps prev (save_feed_trace payload) = [prev, "", payload])
    ∧ "" ∈ runOps "[]" (save_feed_trace "[1]")
    ∧ ¬ ("" = "[]") := by
  refine ⟨?_, by decide, by decide⟩
  intro prev payload
  simp [runOps, save_feed_trace, applyOp, String.empty_append]

theorem schedProcess_keywords_inv (oracle : Nat → AdapterResult)
    (items : List Item) (k b : Nat)
    (hinv : ∀ it ∈ items, truthyStr it.ai_summary = true → it.keywords.isSome = true) :
    ∀ it ∈ schedProcess oracle k b items,
      truthyStr it.ai_summary = true → it.keywords.isSome = true := by
  intro it hmem
  rcases schedProcess_mem oracle items k b it hmem with h | h
  · exact hinv it h
  · intro _; exact h.2

theorem fix_missing_keywords_spec (items : List Item) :
    ∀ it ∈ fix_missing_keywords items,
      truthyStr it.ai_summary = true → truthyKw it.keywords = true := by
  intro it hmem htr
  unfold fix_missing_keywords at hmem
  rw [List.mem_map] at hmem
  rcases hmem with ⟨a, ha, hfa⟩
  by_cases h : truthyStr a.ai_summary && !(truthyKw a.keywords)
  · rw [if_pos h] at hfa
    rw [← hfa] at htr
    simp [truthyStr] at htr
  · rw [if_neg h] at hfa
    rw [← hfa] at htr ⊢
    cases hkw : truthyKw a.keywords
    · exact absurd (show (truthyStr a.ai_summary && !truthyKw a.keywords) = true by
        rw [htr, hkw]; rfl) h
    · rfl

/-- C2: the Scheduler preserves the invariant that a truthy summary
comes with a keywords field, and the repair pass leaves no item with a
truthy summary and falsy keywords. -/
theorem summary_keywords_together (oracle : Nat → AdapterResult) (B : Nat)
    (items : List Item) :
    ((∀ it ∈ items, truthyStr it.ai_summary = true → it.keywords.isSome = true) →
      ∀ it ∈ schedProcess oracle 0 B items,
        truthyStr it.ai_summary = true → it.keywords.isSome = true)
    ∧ (∀ it ∈ fix_missing_keywords items,
        truthyStr it.ai_summary = true → truthyKw it.keywords = true) :=
  ⟨fun h => schedProcess_keywords_inv oracle items 0 B h, fix_missing_keywords_spec items⟩

/-- C2 witness: a mixed corpus run with terminal failures, and the
repair pass over a corpus holding an anomalous item. -/
theorem summary_keywords_together_witness :
    (∀ it ∈ schedProcess (fun _ => (none : AdapterResult)) 0 10 [cItemFresh, cItemDone],
        truthyStr it.ai_summary = true → it.keywords.isSome = true)
    ∧ (∀ it ∈ fix_missing_keywords [cItemFresh, cItemDone, { cItemDone with keywords := none }],
        truthyStr it.ai_summary = true → truthyKw it.keywords = true) :=
  ⟨(summary_keywords_together (fun _ => none) 10 [cItemFresh, cItemDone]).1 (by decide),
    (summary_keywords_together (fun _ => none) 10
      [cItemFresh, cItemDone, { cItemDone with keywords := none }]).2⟩

theorem outerLoop_alwaysFail_completes (B : Nat) (hB : 1 ≤ B) :
    ∀ (c : Nat) (items : List Item), count_remaining items ≤ c → ∀ i,
      (outerLoop alwaysFailOracle B (c + 1) i items).map Prod.snd
        = some LoopExit.completed := by
  intro c
  induction c with
  | zero =>
    intro items hle i
    have h0 : count_remaining items = 0 := Nat.le_zero.mp hle
    simp [outerLoop, h0]
  | succ c ih =>
    intro items hle i
    by_cases h0 : count_remaining items = 0
    · simp [outerLoop, h0]
    · have hc := count_schedProcess (alwaysFailOracle i) items 0 B
      have hpos : 0 < count_remaining items := Nat.pos_of_ne_zero h0
      have hmin : 1 ≤ min B (count_remaining items) := le_min hB hpos
      have hlt : count_remaining (schedProcess (alwaysFailOracle i) 0 B items)
          < count_remaining items := by
        rw [hc]; exact Nat.sub_lt hpos hmin
      have hne : ¬ (count_remaining (schedProcess (alwaysFailOracle i) 0 B items)
          = count_remaining items) := Nat.ne_of_lt hlt
      rw [show outerLoop alwaysFailOracle B (c + 1 + 1) i items
          = outerLoop alwaysFailOracle B (c + 1) (i + 1)
              (schedProcess (alwaysFailOracle i) 0 B items) by
            simp [outerLoop, h0, hne]]
      exact ih _ (by omega) (i + 1)

/-- C5 counterexample: with the always-terminally-failing adapter the
outer loop exits by completing the backlog — the sentinel marker counts
as progress — so it never observes a no-progress iteration, contrary to
"terminates after exactly one no-progress observation". -/
theorem stall_claim_counterexample :
    (outerLoop alwaysFailOracle 10 2 0 [cItemFresh]).map Prod.snd
      = some LoopExit.completed
    ∧ LoopExit.completed ≠ LoopExit.stalled := ⟨by decide, by decide⟩

/-- C5 amended: the outer loop halts at the first iteration whose
before/after remaining counts are equal, reporting stalled; and with an
always terminally failing adapter and batch bound at least 1 it
terminates (with fuel `backlog + 1`) by completing, never observing a
no-progress iteration. -/
theorem stall_detection_amended :
    (∀ (oracles : Nat → Nat → AdapterResult) (B i fuel : Nat) (items : List Item),
        ¬ (count_remaining items = 0) →
        count_remaining (schedProcess (oracles i) 0 B items) = count_remaining items →
        outerLoop oracles B (fuel + 1) i items
          = some (schedProcess (oracles i) 0 B items, LoopExit.stalled))
    ∧ (∀ (B i : Nat) (items : List Item), 1 ≤ B →
        (outerLoop alwaysFailOracle B (count_remaining items + 1) i items).map Prod.snd
          = some LoopExit.completed) := by
  constructor
  · intro oracles B i fuel items h0 heq
    simp [outerLoop, h0, heq]
  · intro B i items hB
    exact outerLoop_alwaysFail_completes B hB (count_remaining items) items (le_refl _) i

/-- C5 witness: a stalled run (batch bound 0) and a completing run of
the always-failing adapter. -/
theorem stall_detection_amended_witness :
    outerLoop (fun _ _ => (none : AdapterResult)) 0 (5 + 1) 0 [cItemFresh]
      = some (schedProcess ((fun _ _ => (none : AdapterResult)) 0) 0 0 [cItemFresh],
          LoopExit.stalled)
    ∧ (outerLoop alwaysFailOracle 10 (count_remaining [cItemFresh] + 1) 0 [cItemFresh]).map
        Prod.snd = some LoopExit.completed :=
  ⟨stall_detection_amended.1 (fun _ _ => none) 0 0 5 [cItemFresh] (by decide) (by decide),
    stall_detection_amended.2 10 0 [cItemFresh] (by decide)⟩

/-- C7: the adapter makes at most 3 attempts; a non-quota error on the
first attempt fails immediately with no waiting; three quota-classified
errors exhaust the retries with backoff waits of 10 s then 20 s and
yield the terminal `none`, distinguishable from the `some` of a
success. -/
theorem adapter_retry_policy (oracle : Nat → AttemptResult) :
    (generateWithRetries oracle).2.1 ≤ 3
    ∧ (∀ m, oracle 0 = AttemptResult.err m → isQuotaError m = false →
        generateWithRetries oracle = (none, 1, []))
    ∧ ((∀ i, i < 3 → ∃ m, oracle i = AttemptResult.err m ∧ isQuotaError m = true) →
        generateWithRetries oracle = (none, 3, [10, 20]))
    ∧ (∀ t, oracle 0 = AttemptResult.ok t →
        generateWithRetries oracle = (some (parseResponse t), 1, [])) := by
  refine ⟨?_, ?_, ?_, ?_⟩
  · rcases h0 : oracle 0 with t0 | m0
    · simp [generateWithRetries, genGo, h0]
    · rcases q0 : isQuotaError m0 with _ | _
      · simp [generateWithRetries, genGo, h0, q0]
      · rcases h1 : oracle 1 with t1 | m1
        · simp [generateWithRetries, genGo, h0, q0, h1]
        · rcases q1 : isQuotaError m1 with _ | _
          · simp [generateWithRetries, genGo, h0, q0, h1, q1]
          · rcases h2 : oracle 2 with t2 | m2
            · simp [generateWithRetries, genGo, h0, q0, h1, q1, h2]
            · rcases q2 : isQuotaError m2 with _ | _ <;>
                simp [generateWithRetries, genGo, h0, q0, h1, q1, h2, q2]
  · intro m h0 hq
    simp [generateWithRetries, genGo, h0, hq]
  · intro hall
    rcases hall 0 (by omega) with ⟨m0, h0, q0⟩
    rcases hall 1 (by omega) with ⟨m1, h1, q1⟩
    rcases hall 2 (by omega) with ⟨m2, h2, q2⟩
    simp [generateWithRetries, genGo, h0, q0, h1, q1, h2, q2]
  · intro t h0
    simp [generateWithRetries, genGo, h0]

/-- C7 witness: two quota errors then a success — two backoff waits
occurred, three attempts were used at most. -/
theorem adapter_retry_policy_witness :
    (generateWithRetries (fun i =>
        if i < 2 then AttemptResult.err "429 rate limit" else AttemptResult.ok "hello")).2.1
      ≤ 3
    ∧ generateWithRetries (fun _ => AttemptResult.err "boom")
        = (none, 1, [])
    ∧ generateWithRetries (fun _ => AttemptResult.err "quota exceeded")
        = (none, 3, [10, 20])
    ∧ generateWithRetries (fun i =>
        if i = 0 then AttemptResult.ok "SUMMARY: x" else AttemptResult.err "quota")
        = (some (parseResponse "SUMMARY: x"), 1, []) :=
  ⟨(adapter_retry_policy (fun i =>
      if i < 2 then AttemptResult.err "429 rate limit" else AttemptResult.ok "hello")).1,
    (adapter_retry_policy (fun _ => AttemptResult.err "boom")).2.1 "boom" rfl (by decide),
    (adapter_retry_policy (fun _ => AttemptResult.err "quota exceeded")).2.2.1
      (fun i _ => ⟨"quota exceeded", rfl, by decide⟩),
    (adapter_retry_policy (fun i =>
      if i = 0 then AttemptResult.ok "SUMMARY: x" else AttemptResult.err "quota")).2.2.2
      "SUMMARY: x" rfl⟩

/-- C10: already-tiered items pass through the scoring pass unchanged,
and `score_post` only ever yields `low`, `mid` or `high`, yielding
`low` when the item has no summary and no description, when the reply
is an error, and when the reply is not a recognized tier. -/
theorem relevance_scoring_spec :
    (∀ (oracle : Nat → GenReply) (k : Nat) (items : List Item),
        List.Forall₂ (fun a b => truthyStr a.relevance_level = true → b = a)
          items (scoreAll oracle k items))
    ∧ (∀ reply item, score_post reply item = "low" ∨ score_post reply item = "mid"
        ∨ score_post reply item = "high")
    ∧ (∀ reply item, pyOr (getStrD item.ai_summary) (getStrD item.description) = "" →
        score_post reply item = "low")
    ∧ (∀ m item, score_post (GenReply.genError m) item = "low")
    ∧ (∀ t item, ¬(pyUpper (pyStrip t) = "HIGH") → ¬(pyUpper (pyStrip t) = "MID") →
        ¬(pyUpper (pyStrip t) = "LOW") → score_post (GenReply.text t) item = "low") := by
  refine ⟨?_, ?_, ?_, ?_, ?_⟩
  · intro oracle k items
    induction items generalizing k with
    | nil => exact List.Forall₂.nil
    | cons it rest ih =>
      by_cases h : truthyStr it.relevance_level
      · rw [show scoreAll oracle k (it :: rest) = it :: scoreAll oracle k rest by
          simp [scoreAll, h]]
        exact List.Forall₂.cons (fun _ => rfl) (ih k)
      · rw [show scoreAll oracle k (it :: rest)
            = { it with relevance_level := some (score_post (oracle k) it) }
              :: scoreAll oracle (k + 1) rest by simp [scoreAll, h]]
        exact List.Forall₂.cons (fun htr => absurd htr h) (ih (k + 1))
  · intro reply item
    unfold score_post
    by_cases hs : pyOr (getStrD item.ai_summary) (getStrD item.description) = ""
    · simp [hs]
    · rcases reply with t | m
      · by_cases h1 : pyUpper (pyStrip t) = "HIGH"
        · right; right; simp [hs, h1]; decide
        · by_cases h2 : pyUpper (pyStrip t) = "MID"
          · right; left; simp [hs, h1, h2]; decide
          · by_cases h3 : pyUpper (pyStrip t) = "LOW"
            · left; simp [hs, h1, h2, h3]; decide
            · left; simp [hs, h1, h2, h3]
      · simp [hs]
  · intro reply item hs
    unfold score_post
    simp [hs]
  · intro m item
    unfold score_post
    by_cases hs : pyOr (getStrD item.ai_summary) (getStrD item.description) = "" <;>
      simp [hs]
  · intro t item h1 h2 h3
    unfold score_post
    by_cases hs : pyOr (getStrD item.ai_summary) (getStrD item.description) = "" <;>
      simp [hs, h1, h2, h3]

/-- C10 witness: a tiered item is untouched and an unrecognized reply
scores low. -/
theorem relevance_scoring_spec_witness :
    List.Forall₂ (fun a b => truthyStr a.relevance_level = true → b = a)
      [{ cItemDone with relevance_level := some "high" }, cItemFresh]
      (scoreAll (fun _ => GenReply.text "maybe") 0
        [{ cItemDone with relevance_level := some "high" }, cItemFresh])
    ∧ score_post (GenReply.text "maybe") cItemDone = "low" :=
  ⟨relevance_scoring_spec.1 (fun _ => GenReply.text "maybe") 0
      [{ cItemDone with relevance_level := some "high" }, cItemFresh],
    relevance_scoring_spec.2.2.2.2 "maybe" cItemDone (by decide) (by decide) (by decide)⟩

/-- C9 counterexample: for an item whose record lacks the
`ai_summary`/`description` keys, the first import inserts `''` columns
(the INSERT defaults) while the re-import's UPDATE writes NULL, so the
articles relation changes on the second import of the same snapshot. -/
theorem import_reimport_changes_rows :
    ((import_feed emptyDB [cItemFresh]).articles.map ArticleRow.ai_summary = [some ""])
    ∧ ((import_feed (import_feed emptyDB [cItemFresh]) [cItemFresh]).articles.map
        ArticleRow.ai_summary = [none])
    ∧ ¬ (import_feed (import_feed emptyDB [cItemFresh]) [cItemFresh]
        = import_feed emptyDB [cItemFresh]) := by
  refine ⟨by decide, by decide, by decide⟩

theorem insertKeywordIfAbsent_shape (db : AnalyticsDB) (kw : String) :
    ∃ ks, (insertKeywordIfAbsent db kw).articles = db.articles
      ∧ (insertKeywordIfAbsent db kw).nextArticleId = db.nextArticleId
      ∧ (insertKeywordIfAbsent db kw).keywords = db.keywords ++ ks
      ∧ (insertKeywordIfAbsent db kw).article_keywords = db.article_keywords := by
  unfold insertKeywordIfAbsent
  split
  · exact ⟨[], rfl, rfl, by simp, rfl⟩
  · exact ⟨[(db.nextKeywordId, kw)], rfl, rfl, rfl, rfl⟩

theorem insertKeywordIfAbsent_finds (db : AnalyticsDB) (kw : String) :
    ((insertKeywordIfAbsent db kw).keywords.find? (fun q => q.2 = kw)).isSome = true := by
  unfold insertKeywordIfAbsent
  split
  · assumption
  · rcases hf : db.keywords.find? (fun q => q.2 = kw) with _ | p
    · simp [List.find?_append, hf]
    · rename_i h
      rw [hf] at h
      simp at h

theorem importKeyword_shape (db : AnalyticsDB) (aid : Nat) (kw : String) :
    ∃ ks pairs,
      (importKeyword db aid kw).articles = db.articles
      ∧ (importKeyword db aid kw).nextArticleId = db.nextArticleId
      ∧ (importKeyword db aid kw).keywords = db.keywords ++ ks
      ∧ (importKeyword db aid kw).article_keywords = db.article_keywords ++ pairs := by
  rcases insertKeywordIfAbsent_shape db kw with ⟨ks, ha, hn, hk, hp⟩
  unfold importKeyword
  dsimp only
  split
  · exact ⟨ks, [], ha, hn, by rw [hk], by rw [hp]; simp⟩
  · split
    · exact ⟨ks, [], ha, hn, by rw [hk], by rw [hp]; simp⟩
    · rename_i p hfp hm
      exact ⟨ks, [(aid, p.1)], ha, hn, by rw [hk], by rw [hp]⟩

theorem importKeyword_synced_id (db : AnalyticsDB) (aid : Nat) (kw : String)
    (h : kwSynced db aid kw = true) : importKeyword db aid kw = db := by
  unfold kwSynced at h
  rcases hf : db.keywords.find? (fun q => q.2 = kw) with _ | p
  · rw [hf] at h; simp at h
  · rw [hf] at h
    have hmem : (aid, p.1) ∈ db.article_keywords := of_decide_eq_true h
    have hins : insertKeywordIfAbsent db kw = db := by
      unfold insertKeywordIfAbsent
      rw [if_pos (by rw [hf]; rfl)]
    unfold importKeyword
    simp only [hins]
    simp only [hf]
    rw [if_pos hmem]

theorem importKeyword_establishes (db : AnalyticsDB) (aid : Nat) (kw : String) :
    kwSynced (importKeyword db aid kw) aid kw = true := by
  unfold importKeyword
  rcases hf : (insertKeywordIfAbsent db kw).keywords.find? (fun q => q.2 = kw) with _ | p
  · have h := insertKeywordIfAbsent_finds db kw
    rw [hf] at h
    simp at h
  · by_cases hm : (aid, p.1) ∈ (insertKeywordIfAbsent db kw).article_keywords
    · simp only [hf]
      rw [if_pos hm]
      unfold kwSynced
      rw [hf]
      exact decide_eq_true hm
    · simp only [hf]
      rw [if_neg hm]
      unfold kwSynced
      rw [show ({ insertKeywordIfAbsent db kw with
            article_keywords := (insertKeywordIfAbsent db kw).article_keywords
              ++ [(aid, p.1)] } : AnalyticsDB).keywords
          = (insertKeywordIfAbsent db kw).keywords from rfl, hf]
      exact decide_eq_true (List.mem_append_right _ (List.mem_singleton.mpr rfl))

theorem importKeyword_preserves (db : AnalyticsDB) (aid aid' : Nat) (kw kw' : String)
    (h : kwSynced db aid' kw' = true) :
    kwSynced (importKeyword db aid kw) aid' kw' = true := by
  rcases importKeyword_shape db aid kw with ⟨ks, pairs, ha, hn, hk, hp⟩
  unfold kwSynced at h ⊢
  rcases hf : db.keywords.find? (fun q => q.2 = kw') with _ | p'
  · rw [hf] at h; simp at h
  · rw [hf] at h
    rw [hk, List.find?_append, hf, Option.or_some, hp]
    exact decide_eq_true (List.mem_append_left _ (of_decide_eq_true h))

theorem updateRowFields_id (item : Item) (tid : Nat) (r : ArticleRow) :
    (updateRowFields item tid r).id = r.id := by
  unfold updateRowFields; split <;> rfl

theorem updateRowFields_link (item : Item) (tid : Nat) (r : ArticleRow) :
    (updateRowFields item tid r).link = r.link := by
  unfold updateRowFields; split <;> rfl

theorem importArticle_kw_unchanged (db : AnalyticsDB) (item : Item) :
    (importArticle db item).1.keywords = db.keywords
    ∧ (importArticle db item).1.article_keywords = db.article_keywords := by
  unfold importArticle
  split <;> exact ⟨rfl, rfl⟩

theorem kwSynced_congr (db db' : AnalyticsDB) (aid : Nat) (kw : String)
    (hk : db'.keywords = db.keywords) (hp : db'.article_keywords = db.article_keywords) :
    kwSynced db' aid kw = kwSynced db aid kw := by
  unfold kwSynced; rw [hk, hp]

theorem importArticle_wf (db : AnalyticsDB) (item : Item) (h : dbWF db) :
    dbWF (importArticle db item).1 := by
  unfold importArticle
  rcases hf : findArticle db item.link with _ | row
  · simp only [hf]
    constructor
    · rw [List.map_append, List.nodup_append]
      refine ⟨h.1, List.nodup_singleton _, ?_⟩
      intro a ha hb
      simp [insertRow] at hb
      subst hb
      rw [List.mem_map] at ha
      rcases ha with ⟨r, hr, hid⟩
      have := h.2 r hr
      omega
    · intro r hr
      rcases List.mem_append.mp hr with h1 | h1
      · have := h.2 r h1
        simp
        omega
      · simp at h1
        subst h1
        simp [insertRow]
  · simp only [hf]
    constructor
    · rw [show (db.articles.map (updateRowFields item row.id)).map ArticleRow.id
          = db.articles.map ArticleRow.id by
            rw [List.map_map]
            exact List.map_congr_left (fun r _ => updateRowFields_id item row.id r)]
      exact h.1
    · intro r hr
      rw [List.mem_map] at hr
      rcases hr with ⟨r0, hr0, hup⟩
      rw [← hup, updateRowFields_id]
      exact h.2 r0 hr0

theorem importArticle_spec (db : AnalyticsDB) (item : Item)
    (hsum : item.ai_summary.isSome = true) (hdesc : item.description.isSome = true) :
    ∃ r, findArticle (importArticle db item).1 item.link = some r
      ∧ r.id = (importArticle db item).2
      ∧ r.ai_summary = item.ai_summary ∧ r.description = item.description := by
  rcases Option.isSome_iff_exists.mp hsum with ⟨vs, hvs⟩
  rcases Option.isSome_iff_exists.mp hdesc with ⟨vd, hvd⟩
  unfold importArticle
  rcases hf : findArticle db item.link with _ | row
  · simp only [hf]
    refine ⟨insertRow db item, ?_, rfl, ?_, ?_⟩
    · unfold findArticle at hf ⊢
      simp only [List.find?_append, hf, Option.none_or]
      rw [List.find?_cons_of_pos _ (by simp [insertRow])]
    · simp [insertRow, getStrD, hvs]
    · simp [insertRow, getStrD, hvd]
  · simp only [hf]
    refine ⟨updateRowFields item row.id row, ?_, ?_, ?_, ?_⟩
    · unfold findArticle at hf ⊢
      rw [List.find?_map]
      rw [show ((fun r => decide (r.link = item.link))
            ∘ updateRowFields item row.id)
          = fun r => decide (r.link = item.link) from
          funext fun r => by simp [Function.comp, updateRowFields_link]]
      rw [hf]
      rfl
    · exact updateRowFields_id item row.id row
    · unfold updateRowFields
      rw [if_pos rfl]
    · unfold updateRowFields
      rw [if_pos rfl]

theorem importArticle_preserves_other (db : AnalyticsDB) (item : Item) (hwf : dbWF db)
    (link' : String) (hne : ¬ link' = item.link) :
    findArticle (importArticle db item).1 link' = findArticle db link' := by
  unfold importArticle
  rcases hf : findArticle db item.link with _ | row
  · simp only [hf]
    unfold findArticle
    rw [List.find?_append]
    rw [show List.find? (fun r => decide (r.link = link')) [insertRow db item] = none by
      rw [List.find?_cons_of_neg, List.find?_nil]
      simp [insertRow]
      intro hcon
      exact hne hcon.symm]
    exact Option.or_none
  · simp only [hf]
    unfold findArticle
    rw [List.find?_map]
    rw [show ((fun r => decide (r.link = link')) ∘ updateRowFields item row.id)
        = fun r => decide (r.link = link') from
        funext fun r => by simp [Function.comp, updateRowFields_link]]
    rcases hg : db.articles.find? (fun r => decide (r.link = link')) with _ | r0
    · rw [hg]; rfl
    · have hr0 : r0 ∈ db.articles := List.mem_of_find?_eq_some hg
      have hrow : row ∈ db.articles := List.mem_of_find?_eq_some hf
      have hlink0 : r0.link = link' := by
        have := List.find?_some hg
        exact of_decide_eq_true this
      have hlinkrow : row.link = item.link := by
        have := List.find?_some hf
        exact of_decide_eq_true this
      have hidne : ¬ r0.id = row.id := by
        intro hid
        have := List.inj_on_of_nodup_map hwf.1 hr0 hrow hid
        rw [this] at hlink0
        exact hne (hlink0 ▸ hlinkrow ▸ rfl)
      have hup : updateRowFields item row.id r0 = r0 := by
        unfold updateRowFields
        rw [if_neg hidne]
      rw [hg]
      simp [hup]

theorem foldl_importKeyword_shape (aid : Nat) :
    ∀ (kws : List String) (db : AnalyticsDB),
      ∃ ks pairs,
        (kws.foldl (fun d kw => importKeyword d aid kw) db).articles = db.articles
        ∧ (kws.foldl (fun d kw => importKeyword d aid kw) db).nextArticleId
            = db.nextArticleId
        ∧ (kws.foldl (fun d kw => importKeyword d aid kw) db).keywords
            = db.keywords ++ ks
        ∧ (kws.foldl (fun d kw => importKeyword d aid kw) db).article_keywords
            = db.article_keywords ++ pairs := by
  intro kws
  induction kws with
  | nil => intro db; exact ⟨[], [], rfl, rfl, by simp, by simp⟩
  | cons k ks ih =>
    intro db
    rcases importKeyword_shape db aid k with ⟨k1, p1, ha1, hn1, hk1, hp1⟩
    rcases ih (importKeyword db aid k) with ⟨k2, p2, ha2, hn2, hk2, hp2⟩
    refine ⟨k1 ++ k2, p1 ++ p2, ?_, ?_, ?_, ?_⟩
    · rw [List.foldl_cons, ha2, ha1]
    · rw [List.foldl_cons, hn2, hn1]
    · rw [List.foldl_cons, hk2, hk1, List.append_assoc]
    · rw [List.foldl_cons, hp2, hp1, List.append_assoc]

theorem foldl_importKeyword_preserves (aid aid' : Nat) (kw' : String) :
    ∀ (kws : List String) (db : AnalyticsDB),
      kwSynced db aid' kw' = true →
      kwSynced (kws.foldl (fun d k => importKeyword d aid k) db) aid' kw' = true := by
  intro kws
  induction kws with
  | nil => intro db h; exact h
  | cons k ks ih =>
    intro db h
    rw [List.foldl_cons]
    exact ih _ (importKeyword_preserves db aid aid' k kw' h)

theorem foldl_importKeyword_synced (aid : Nat) :
    ∀ (kws : List String) (db : AnalyticsDB) (kw : String),
      (kwSynced db aid kw = true ∨ kw ∈ kws) →
      kwSynced (kws.foldl (fun d k => importKeyword d aid k) db) aid kw = true := by
  intro kws
  induction kws with
  | nil =>
    intro db kw h
    rcases h with h | h
    · exact h
    · simp at h
  | cons k ks ih =>
    intro db kw h
    rw [List.foldl_cons]
    rcases h with h | h
    · exact ih _ kw (Or.inl (importKeyword_preserves db aid aid k kw h))
    · rcases List.mem_cons.mp h with h1 | h1
      · subst h1
        exact ih _ kw (Or.inl (importKeyword_establishes db aid kw))
      · exact ih _ kw (Or.inr h1)

theorem foldl_importKeyword_id (aid : Nat) :
    ∀ (kws : List String) (db : AnalyticsDB),
      (∀ kw ∈ kws, kwSynced db aid kw = true) →
      kws.foldl (fun d k => importKeyword d aid k) db = db := by
  intro kws
  induction kws with
  | nil => intro db _; rfl
  | cons k ks ih =>
    intro db h
    rw [List.foldl_cons, importKeyword_synced_id db aid k (h k (List.mem_cons_self k ks))]
    exact ih db (fun kw hkw => h kw (List.mem_cons_of_mem k hkw))

theorem importItem_wf (db : AnalyticsDB) (item : Item) (h : dbWF db) :
    dbWF (importItem db item) := by
  unfold importItem
  dsimp only
  rcases foldl_importKeyword_shape (importArticle db item).2 (item.keywords.getD [])
    (importArticle db item).1 with ⟨ks, ps, ha, hn, hk, hp⟩
  have hwf1 := importArticle_wf db item h
  constructor
  · rw [ha]; exact hwf1.1
  · intro r hr
    rw [ha] at hr
    rw [hn]
    exact hwf1.2 r hr

theorem importItem_establishes (db : AnalyticsDB) (item : Item)
    (hsum : item.ai_summary.isSome = true) (hdesc : item.description.isSome = true) :
    itemSynced (importItem db item) item = true := by
  rcases importArticle_spec db item hsum hdesc with ⟨r, hfind, hid, hai, hde⟩
  unfold importItem
  dsimp only
  rcases foldl_importKeyword_shape (importArticle db item).2 (item.keywords.getD [])
    (importArticle db item).1 with ⟨ks, ps, ha, hn, hk, hp⟩
  have hfr : findArticle ((item.keywords.getD []).foldl
      (fun d kw => importKeyword d (importArticle db item).2 kw)
      (importArticle db item).1) item.link = some r := by
    unfold findArticle at hfind ⊢
    rw [ha]
    exact hfind
  unfold itemSynced
  simp only [hfr, hai, hde, beq_self_eq_true, Bool.true_and, Bool.and_eq_true,
    List.all_eq_true]
  intro kw hkw
  rw [hid]
  exact foldl_importKeyword_synced (importArticle db item).2 (item.keywords.getD [])
    (importArticle db item).1 kw (Or.inr hkw)

theorem importItem_preserves_other (db : AnalyticsDB) (item other : Item) (hwf : dbWF db)
    (hne : ¬ other.link = item.link) (hs : itemSynced db other = true) :
    itemSynced (importItem db item) other = true := by
  unfold itemSynced at hs
  rcases hf : findArticle db other.link with _ | r
  · rw [hf] at hs; simp at hs
  · simp only [hf] at hs
    have hf1 : findArticle (importArticle db item).1 other.link = some r := by
      rw [importArticle_preserves_other db item hwf other.link hne]; exact hf
    unfold importItem
    dsimp only
    rcases foldl_importKeyword_shape (importArticle db item).2 (item.keywords.getD [])
      (importArticle db item).1 with ⟨ks, ps, ha, hn, hk, hp⟩
    have hfr : findArticle ((item.keywords.getD []).foldl
        (fun d kw => importKeyword d (importArticle db item).2 kw)
        (importArticle db item).1) other.link = some r := by
      unfold findArticle at hf1 ⊢
      rw [ha]
      exact hf1
    unfold itemSynced
    simp only [hfr, Bool.and_eq_true, List.all_eq_true]
    simp only [Bool.and_eq_true, List.all_eq_true] at hs
    refine ⟨⟨hs.1.1, hs.1.2⟩, ?_⟩
    intro kw hkw
    have hc : kwSynced (importArticle db item).1 r.id kw = kwSynced db r.id kw :=
      kwSynced_congr db _ r.id kw (importArticle_kw_unchanged db item).1
        (importArticle_kw_unchanged db item).2
    exact foldl_importKeyword_preserves (importArticle db item).2 r.id kw
      (item.keywords.getD []) (importArticle db item).1
      (by rw [hc]; exact hs.2 kw hkw)

theorem importItem_synced_id (db : AnalyticsDB) (item : Item) (hwf : dbWF db)
    (hs : itemSynced db item = true) : importItem db item = db := by
  unfold itemSynced at hs
  rcases hf : findArticle db item.link with _ | r
  · rw [hf] at hs; simp at hs
  · simp only [hf] at hs
    simp only [Bool.and_eq_true, List.all_eq_true, beq_iff_eq] at hs
    obtain ⟨⟨hai, hde⟩, hall⟩ := hs
    have hrmem : r ∈ db.articles := List.mem_of_find?_eq_some hf
    have hidfun : ∀ a ∈ db.articles, updateRowFields item r.id a = a := by
      intro a hamem
      unfold updateRowFields
      by_cases hid : a.id = r.id
      · rw [if_pos hid]
        have haeq : a = r := List.inj_on_of_nodup_map hwf.1 hamem hrmem hid
        subst haeq
        rw [← hai, ← hde]
      · rw [if_neg hid]
    have hmap : db.articles.map (updateRowFields item r.id) = db.articles := by
      rw [List.map_congr_left hidfun]
      simp
    unfold importItem
    dsimp only
    unfold importArticle
    simp only [hf]
    have hbase : ({ db with articles := db.articles.map (updateRowFields item r.id) }
        : AnalyticsDB) = db := by
      rw [hmap]
    rw [hbase]
    exact foldl_importKeyword_id r.id (item.keywords.getD []) db hall

theorem import_feed_keeps_synced (other : Item) :
    ∀ (items : List Item) (db : AnalyticsDB), dbWF db →
      itemSynced db other = true →
      ¬ other.link ∈ items.map Item.link →
      itemSynced (import_feed db items) other = true := by
  intro items
  induction items with
  | nil => intro db _ hs _; exact hs
  | cons a rest ih =>
    intro db hwf hs hnin
    have hne : ¬ other.link = a.link := by
      intro h; exact hnin (by rw [List.map_cons]; exact List.mem_cons.mpr (Or.inl h))
    have hnin2 : ¬ other.link ∈ rest.map Item.link := by
      intro h; exact hnin (by rw [List.map_cons]; exact List.mem_cons.mpr (Or.inr h))
    show itemSynced (import_feed (importItem db a) rest) other = true
    exact ih (importItem db a) (importItem_wf db a hwf)
      (importItem_preserves_other db a other hwf hne hs) hnin2

theorem import_feed_all_synced :
    ∀ (items : List Item) (db : AnalyticsDB), dbWF db →
      (items.map Item.link).Nodup →
      (∀ it ∈ items, it.ai_summary.isSome = true ∧ it.description.isSome = true) →
      dbWF (import_feed db items)
      ∧ ∀ it ∈ items, itemSynced (import_feed db items) it = true := by
  intro items
  induction items with
  | nil =>
    intro db hwf _ _
    exact ⟨hwf, by intro it h; simp at h⟩
  | cons a rest ih =>
    intro db hwf hnd hfields
    rw [List.map_cons, List.nodup_cons] at hnd
    have hwf1 := importItem_wf db a hwf
    have hsa : itemSynced (importItem db a) a = true :=
      importItem_establishes db a (hfields a (List.mem_cons_self a rest)).1
        (hfields a (List.mem_cons_self a rest)).2
    rcases ih (importItem db a) hwf1 hnd.2
      (fun it hit => hfields it (List.mem_cons_of_mem a hit)) with ⟨hwf2, hsync2⟩
    refine ⟨hwf2, ?_⟩
    intro it hit
    rcases List.mem_cons.mp hit with h1 | h1
    · subst h1
      show itemSynced (import_feed (importItem db it) rest) it = true
      exact import_feed_keeps_synced it rest (importItem db it) hwf1 hsa hnd.1
    · show itemSynced (import_feed (importItem db a) rest) it = true
      exact hsync2 it h1

theorem import_feed_synced_id :
    ∀ (items : List Item) (db : AnalyticsDB), dbWF db →
      (∀ it ∈ items, itemSynced db it = true) →
      import_feed db items = db := by
  intro items
  induction items with
  | nil => intro db _ _; rfl
  | cons a rest ih =>
    intro db hwf hs
    have ha : importItem db a = db :=
      importItem_synced_id db a hwf (hs a (List.mem_cons_self a rest))
    show import_feed (importItem db a) rest = db
    rw [ha]
    exact ih db hwf (fun it hit => hs it (List.mem_cons_of_mem a hit))

/-- C9 amended: on a well-formed store, for a snapshot with
pairwise-distinct links whose items all carry explicit
`ai_summary`/`description` values, re-importing the snapshot leaves the
database (all three relations and counters) unchanged; and an item
whose link is already present is updated in place, leaving the number
of article rows unchanged. -/
theorem import_feed_idempotent (db : AnalyticsDB) (items : List Item)
    (hwf : dbWF db) (hnd : (items.map Item.link).Nodup)
    (hfields : ∀ it ∈ items, it.ai_summary.isSome = true ∧ it.description.isSome = true) :
    import_feed (import_feed db items) items = import_feed db items
    ∧ (∀ item : Item, (findArticle db item.link).isSome = true →
        (importItem db item).articles.length = db.articles.length) := by
  constructor
  · rcases import_feed_all_synced items db hwf hnd hfields with ⟨hwf1, hsync⟩
    exact import_feed_synced_id items _ hwf1 hsync
  · intro item hfound
    rcases hfa : findArticle db item.link with _ | row
    · rw [hfa] at hfound; simp at hfound
    · unfold importItem
      dsimp only
      rcases foldl_importKeyword_shape (importArticle db item).2 (item.keywords.getD [])
        (importArticle db item).1 with ⟨ks, ps, ha, hn, hk, hp⟩
      rw [ha]
      unfold importArticle
      simp only [hfa]
      rw [List.length_map]

/-- C9 witness: re-importing a fully enriched one-item snapshot into a
fresh store changes nothing, and importing an item whose link is
present keeps the article count. -/
theorem import_feed_idempotent_witness :
    import_feed (import_feed emptyDB [cItemDone]) [cItemDone]
        = import_feed emptyDB [cItemDone]
    ∧ ((findArticle (import_feed emptyDB [cItemDone]) cItemDone.link).isSome = true →
        (importItem (import_feed emptyDB [cItemDone]) cItemDone).articles.length
          = (import_feed emptyDB [cItemDone]).articles.length) :=
  ⟨(import_feed_idempotent emptyDB [cItemDone]
      (by unfold dbWF; exact ⟨by decide, by decide⟩)
      (by decide) (by decide)).1,
    (import_feed_idempotent (import_feed emptyDB [cItemDone]) [cItemDone]
      (by unfold dbWF; exact ⟨by decide, by decide⟩)
      (by decide) (by decide)).2 cItemDone⟩

end RssAlert
